import Mathlib

/-!
Shallow embedding of the event-driven dispatcher
(pkg/event_dispatcher/event_dispatcher.go, pkg/action/action.go,
pkg/event/event.go).

Modelling conventions:
- Go `map[string]interface \x7b...\x7d` values are modelled with `Int` leaves;
  the dispatcher never inspects them.
- Go `event.Event` is a nilable map, modelled as `Option KVMap` with `none`
  standing for Go's nil map.
- Actions in Go are arbitrary impure functions; the external mutable state an
  action may read (fixed between attempts by the caller) is modelled as an
  explicit `World` argument supplied with each public call.
- `time.Now()` is modelled as a monotone counter (`clock`) threaded through the
  dispatcher state; each recorded `ActionResult` stamps the current counter.
- The Go `map[int]*snapshot` is modelled as an association list with Go map
  semantics (assignment replaces an existing key, otherwise adds a new one);
  `len` of the map is the list length (keys are kept unique by construction).
- Go `error` results are modelled as `Option DispatchError`, `none` standing
  for a nil error; the error constructors mirror the `errors.New` sentinels and
  `fmt.Errorf` wrappings of the source. A Go nil-pointer dereference (only
  possible on a map miss inside `validateRetryJobId`, shown unreachable below)
  is modelled by the dedicated `nilDereference` value.
-/

namespace EventDrivenApp

/-- Go map of string keys to dynamic values, with `Int` standing for the
dynamic leaves. -/
abbrev KVMap := List (String × Int)

/-- pkg/event: `Event` is a nilable key-value map; `none` models Go nil. -/
abbrev Ev := Option KVMap

/-- Opaque `context.Context` capability: stored and passed through, never
inspected by the dispatcher. -/
abbrev Ctx := Nat

/-- External mutable state an action may observe (fixed for the duration of
one execution attempt). -/
abbrev World := Nat

/-- pkg/action: a single event handler with a `Name` and a `Do` behavior
returning either an output mapping or an error message. -/
structure Action where
  Name : String
  Do : Ctx → Ev → World → Except String Ev

/-- The error outcomes produced by the dispatcher, mirroring the source's
`errors.New` sentinels and `fmt.Errorf` calls. -/
inductive DispatchError where
  /-- AddAction: action with this name already exists. -/
  | actionAlreadyExists (name : String)
  /-- RemoveAction: no action with this name exists. -/
  | actionDoesNotExist (name : String)
  /-- handleEventByActions: the named action failed with the given cause. -/
  | actionFailed (name : String) (cause : String)
  /-- ErrorInvalidJobId sentinel. -/
  | invalidJobId
  /-- ErrorSucceededJobRetryCall sentinel. -/
  | succeededJobRetryCall
  /-- a Go nil-pointer dereference (unreachable from the initial state). -/
  | nilDereference
  deriving DecidableEq

/-- Go actionResult stores a successfully executed action context and result. -/
structure ActionResult where
  Name : String
  Input : Ev
  Output : Ev
  Timestamp : String

/-- Go snapshot: parameters, state and result of one event handling process.
`Event` and `Context` name the source's fields; their model types are `Ev`
and `Ctx`. -/
structure Snapshot where
  Id : Nat
  Event : Ev
  ActionsResults : List ActionResult
  Context : Ctx
  Success : Bool
  actionsToProcess : List Action

/-- Go EventDispatcher: the actions registry, job id counter and snapshot
store (plus the modelled `time.Now` counter). The Go mutex serialises the
public operations; the model makes each operation one atomic state
transition. -/
structure EventDispatcher where
  actions : List Action
  currentJobId : Nat
  snapshots : List (Nat × Snapshot)
  clock : Nat

/-- Constructor NewEventDispatcher: empty registry, id counter 0, empty
snapshot store. -/
def NewEventDispatcher : EventDispatcher :=
  { actions := [], currentJobId := 0, snapshots := [], clock := 0 }

/-- Go map assignment `m[k] = v`: replace the binding if `k` is present,
otherwise add it. -/
def mapInsert : List (Nat × Snapshot) → Nat → Snapshot → List (Nat × Snapshot)
  | [], k, v => [(k, v)]
  | (k', v') :: rest, k, v =>
    if k = k' then (k, v) :: rest else (k', v') :: mapInsert rest k v

/-- Go map read `m[k]` as an optional value. -/
def mapLookup : List (Nat × Snapshot) → Nat → Option Snapshot
  | [], _ => none
  | (k', v') :: rest, k => if k = k' then some v' else mapLookup rest k

/-- Method AddAction appends `act` unless an action with the same name is already
registered. -/
def AddAction (d : EventDispatcher) (act : Action) :
    EventDispatcher × Option DispatchError :=
  if d.actions.any fun a => act.Name == a.Name then
    (d, some (.actionAlreadyExists act.Name))
  else
    ({ d with actions := d.actions ++ [act] }, none)

/-- The removal loop of `RemoveAction`: drop the first action carrying the
given name, or report that none does. -/
def removeByName : List Action → String → Option (List Action)
  | [], _ => none
  | a :: rest, n =>
    if n == a.Name then some rest
    else (removeByName rest n).map fun l => a :: l

/-- Method RemoveAction removes the action with `act`'s name, preserving the order
of the remainder, or fails if no such action is registered. -/
def RemoveAction (d : EventDispatcher) (act : Action) :
    EventDispatcher × Option DispatchError :=
  match removeByName d.actions act.Name with
  | some l => ({ d with actions := l }, none)
  | none => (d, some (.actionDoesNotExist act.Name))

/-- Outcome of the execution loop of `handleEventByActions`: the recorded
results, the remaining pending actions, the `Success` flag, the returned
error and the advanced clock. -/
structure RunOutcome where
  results : List ActionResult
  pending : List Action
  success : Bool
  err : Option DispatchError
  clock : Nat

/-- The `for` loop of `handleEventByActions`: process the pending list front
to back; on an action failure stop at once (the failed action stays at the
head of pending); on success append an `ActionResult` and pop the head; when
pending is exhausted report success. -/
def runActions (ctx : Ctx) (ev : Ev) (w : World) :
    Nat → List ActionResult → List Action → RunOutcome
  | c, acc, [] => ⟨acc, [], true, none, c⟩
  | c, acc, a :: rest =>
    match a.Do ctx ev w with
    | .error e => ⟨acc, a :: rest, false, some (.actionFailed a.Name e), c⟩
    | .ok out =>
      runActions ctx ev w (c + 1)
        (acc ++ [⟨a.Name, ev, out, toString c⟩]) rest

/-- Method handleEventByActions executes the action list for the event and then (a
deferred store in the source, so on failure as well) stores the resulting
snapshot under `jobId`. The snapshot is freshly allocated on every attempt,
with `ActionsResults` starting from Go's zero value (empty). -/
def handleEventByActions (d : EventDispatcher) (ctx : Ctx) (ev : Ev)
    (actions : List Action) (jobId : Nat) (w : World) :
    EventDispatcher × Option DispatchError :=
  let r := runActions ctx ev w d.clock [] actions
  let snap : Snapshot :=
    { Id := jobId, Event := ev, ActionsResults := r.results, Context := ctx,
      Success := r.success, actionsToProcess := r.pending }
  ({ d with snapshots := mapInsert d.snapshots jobId snap, clock := r.clock },
   r.err)

/-- Method HandleEvent plans with a copy of the current registry (list values give
the copy semantics of the source's full-slice copy), assigns the next job id,
increments the counter and runs the engine; it returns the job id together
with the run's error. There is no validation of the event. -/
def HandleEvent (d : EventDispatcher) (ctx : Ctx) (ev : Ev) (w : World) :
    EventDispatcher × Nat × Option DispatchError :=
  let actions := d.actions
  let jobId := d.currentJobId
  let d' := { d with currentJobId := d.currentJobId + 1 }
  let r := handleEventByActions d' ctx ev actions jobId w
  (r.1, jobId, r.2)

/-- Method validateRetryJobId: a job id out of the range of the snapshot store (or
negative) is invalid; a stored snapshot that already succeeded refuses a
retry. The map miss inside the range check would be a Go nil dereference;
it is unreachable from the initial state (see the store-keys invariant). -/
def validateRetryJobId (d : EventDispatcher) (jobId : Int) :
    Option DispatchError :=
  if (d.snapshots.length : Int) ≤ jobId ∨ jobId < 0 then some .invalidJobId
  else
    match mapLookup d.snapshots jobId.toNat with
    | none => some .nilDereference
    | some s => if s.Success then some .succeededJobRetryCall else none

/-- Method RetryJob validates the id, loads the stored snapshot and re-runs the
engine on the snapshot's stored context, event and pending actions, under the
same job id. -/
def RetryJob (d : EventDispatcher) (jobId : Int) (w : World) :
    EventDispatcher × Option DispatchError :=
  match validateRetryJobId d jobId with
  | some e => (d, some e)
  | none =>
    match mapLookup d.snapshots jobId.toNat with
    | none => (d, some .nilDereference)
    | some s =>
      handleEventByActions d s.Context s.Event s.actionsToProcess jobId.toNat w

/-- One public operation of the dispatcher, with the ambient world state the
call observes. -/
inductive Op where
  | addAction (a : Action)
  | removeAction (a : Action)
  | handleEvent (ctx : Ctx) (ev : Ev) (w : World)
  | retryJob (jobId : Int) (w : World)

/-- The state reached after one public operation. -/
def step (d : EventDispatcher) : Op → EventDispatcher
  | .addAction a => (AddAction d a).1
  | .removeAction a => (RemoveAction d a).1
  | .handleEvent ctx ev w => (HandleEvent d ctx ev w).1
  | .retryJob j w => (RetryJob d j w).1

/-- The state reached after a sequence of public operations. -/
def runOps (d : EventDispatcher) : List Op → EventDispatcher
  | [] => d
  | op :: rest => runOps (step d op) rest

/-- The number of `handleEvent` operations in a sequence. -/
def countHandles : List Op → Nat
  | [] => 0
  | .handleEvent _ _ _ :: rest => countHandles rest + 1
  | _ :: rest => countHandles rest

/-- The job ids returned by the `HandleEvent` calls of a sequence of public
operations, in call order. -/
def handleIds (d : EventDispatcher) : List Op → List Nat
  | [] => []
  | .handleEvent ctx ev w :: rest =>
    (HandleEvent d ctx ev w).2.1 :: handleIds (step d (.handleEvent ctx ev w)) rest
  | op :: rest => handleIds (step d op) rest

/-- A dispatcher state reachable from `NewEventDispatcher` by public
operations. -/
inductive Reachable : EventDispatcher → Prop where
  | init : Reachable NewEventDispatcher
  | step (d : EventDispatcher) (op : Op) :
      Reachable d → Reachable (step d op)

/-- The keys of the snapshot store, in insertion order. -/
def storeKeys (d : EventDispatcher) : List Nat :=
  d.snapshots.map Prod.fst

/-! Concrete actions and states used to evaluate the model on the
spec's running scenarios. -/

/-- An action that always succeeds. -/
def actOk : Action :=
  { Name := "ok_action", Do := fun _ _ _ => .ok (some [("done", 1)]) }

/-- An action that always fails. -/
def actBoom : Action :=
  { Name := "boom_action", Do := fun _ _ _ => .error "boom" }

/-- An action that fails while the external world is in state 0 and succeeds
once the caller has fixed it (any other world state). -/
def actFlaky : Action :=
  { Name := "flaky_action",
    Do := fun _ _ w => if w = 0 then .error "down" else .ok (some []) }

/-- A sample non-nil event. -/
def evSample : Ev := some [("k", 1)]

/-- Registry ok-then-boom: the second action always fails. -/
def dispOkBoom : EventDispatcher :=
  (AddAction (AddAction NewEventDispatcher actOk).1 actBoom).1

/-- Registry ok-then-flaky: the second action fails only in world state 0. -/
def dispOkFlaky : EventDispatcher :=
  (AddAction (AddAction NewEventDispatcher actOk).1 actFlaky).1

/-- ok-then-boom after dispatching `evSample` (job 0 fails at the second
action, leaving one recorded result and one pending action). -/
def dispOkBoomFailed : EventDispatcher :=
  (HandleEvent dispOkBoom 0 evSample 0).1

/-- The snapshot stored for job 0 of `dispOkBoomFailed`. -/
def snapOkBoomFailed : Snapshot :=
  Snapshot.mk 0 evSample
    [ActionResult.mk "ok_action" evSample (some [("done", 1)]) "0"]
    0 false [actBoom]

/-- A dispatcher with no actions after handling one event: job 0 succeeded
trivially. Built through `step` so reachability is immediate. -/
def dispTrivialDone : EventDispatcher :=
  step NewEventDispatcher (.handleEvent 7 (some []) 0)

/-- The snapshot stored for job 0 of `dispTrivialDone`. -/
def snapTrivialDone : Snapshot := Snapshot.mk 0 (some []) [] 7 true []

/-! Association-list lemmas for the snapshot store. -/

theorem mapLookup_insert_self (m : List (Nat × Snapshot)) (k : Nat) (v : Snapshot) :
    mapLookup (mapInsert m k v) k = some v := by
  induction m with
  | nil => simp [mapInsert, mapLookup]
  | cons p rest ih =>
    obtain ⟨k', v'⟩ := p
    by_cases h : k = k'
    · simp [mapInsert, mapLookup, h]
    · simp [mapInsert, mapLookup, h, ih]

theorem keys_insert_mem (m : List (Nat × Snapshot)) (k : Nat) (v : Snapshot)
    (h : k ∈ m.map Prod.fst) :
    (mapInsert m k v).map Prod.fst = m.map Prod.fst := by
  induction m with
  | nil => simp at h
  | cons p rest ih =>
    obtain ⟨k', v'⟩ := p
    by_cases hk : k = k'
    · simp [mapInsert, hk]
    · rw [List.map_cons] at h
      rcases List.mem_cons.mp h with h | h
      · exact absurd h hk
      · simp [mapInsert, hk, ih h]

theorem keys_insert_not_mem (m : List (Nat × Snapshot)) (k : Nat) (v : Snapshot)
    (h : k ∉ m.map Prod.fst) :
    (mapInsert m k v).map Prod.fst = m.map Prod.fst ++ [k] := by
  induction m with
  | nil => simp [mapInsert]
  | cons p rest ih =>
    obtain ⟨k', v'⟩ := p
    rw [List.map_cons, List.mem_cons] at h
    push_neg at h
    simp [mapInsert, h.1, ih h.2]

theorem mapLookup_mem_keys (m : List (Nat × Snapshot)) (k : Nat) (s : Snapshot)
    (h : mapLookup m k = some s) : k ∈ m.map Prod.fst := by
  induction m with
  | nil => simp [mapLookup] at h
  | cons p rest ih =>
    obtain ⟨k', v'⟩ := p
    by_cases hk : k = k'
    · simp [hk]
    · simp only [mapLookup, if_neg hk] at h
      rw [List.map_cons]
      exact List.mem_cons_of_mem _ (ih h)

/-! Lemmas about the execution loop. -/

theorem runActions_fail_head (ctx : Ctx) (ev : Ev) (w : World)
    (a : Action) (post : List Action) (e : String)
    (ha : a.Do ctx ev w = .error e) (c : Nat) (acc : List ActionResult) :
    runActions ctx ev w c acc (a :: post) =
      ⟨acc, a :: post, false, some (.actionFailed a.Name e), c⟩ := by
  simp [runActions, ha]

theorem runActions_err_none_iff (ctx : Ctx) (ev : Ev) (w : World)
    (l : List Action) : ∀ (c : Nat) (acc : List ActionResult),
    ((runActions ctx ev w c acc l).err = none ↔
      ∀ a ∈ l, (a.Do ctx ev w).isOk = true) := by
  induction l with
  | nil => intro c acc; simp [runActions]
  | cons a rest ih =>
    intro c acc
    cases h : a.Do ctx ev w with
    | error e =>
      rw [runActions_fail_head ctx ev w a rest e h]
      constructor
      · intro hnone; simp at hnone
      · intro hall
        have hh := hall a (List.mem_cons_self a rest)
        rw [h] at hh
        simp [Except.isOk, Except.toBool] at hh
    | ok out =>
      simp only [runActions, h]
      rw [ih]
      constructor
      · intro hall b hb
        rcases List.mem_cons.mp hb with hb | hb
        · subst hb; simp [h, Except.isOk, Except.toBool]
        · exact hall b hb
      · intro hall b hb
        exact hall b (List.mem_cons_of_mem _ hb)

theorem runActions_ok_prefix (ctx : Ctx) (ev : Ev) (w : World)
    (pre : List Action) (hpre : ∀ a ∈ pre, (a.Do ctx ev w).isOk = true) :
    ∀ (rest : List Action) (c : Nat) (acc : List ActionResult),
    ∃ res : List ActionResult,
      runActions ctx ev w c acc (pre ++ rest) =
        runActions ctx ev w (c + pre.length) (acc ++ res) rest ∧
      res.length = pre.length := by
  induction pre with
  | nil => intro rest c acc; exact ⟨[], by simp, rfl⟩
  | cons a pre' ih =>
    intro rest c acc
    have ha : (a.Do ctx ev w).isOk = true := hpre a (List.mem_cons_self a pre')
    cases h : a.Do ctx ev w with
    | error e => rw [h] at ha; simp [Except.isOk, Except.toBool] at ha
    | ok out =>
      have hpre' : ∀ b ∈ pre', (b.Do ctx ev w).isOk = true :=
        fun b hb => hpre b (List.mem_cons_of_mem _ hb)
      obtain ⟨res, heq, hlen⟩ :=
        ih hpre' rest (c + 1) (acc ++ [⟨a.Name, ev, out, toString c⟩])
      refine ⟨⟨a.Name, ev, out, toString c⟩ :: res, ?_, by simp [hlen]⟩
      rw [List.cons_append]
      simp only [runActions, h]
      rw [heq]
      congr 1
      · simp only [List.length_cons]; omega
      · simp

theorem runActions_names (ctx : Ctx) (ev : Ev) (w : World) (l : List Action) :
    ∀ (c : Nat) (acc : List ActionResult),
    (runActions ctx ev w c acc l).results.map (fun r => r.Name) ++
      (runActions ctx ev w c acc l).pending.map (fun a => a.Name) =
    acc.map (fun r => r.Name) ++ l.map (fun a => a.Name) := by
  induction l with
  | nil => intro c acc; simp [runActions]
  | cons a rest ih =>
    intro c acc
    cases h : a.Do ctx ev w with
    | error e => simp [runActions, h]
    | ok out =>
      simp only [runActions, h]
      rw [ih]
      simp

/-! Frame lemmas: which state components each operation can touch. -/

theorem AddAction_frame (d : EventDispatcher) (a : Action) :
    (AddAction d a).1.currentJobId = d.currentJobId ∧
    (AddAction d a).1.snapshots = d.snapshots ∧
    (AddAction d a).1.clock = d.clock := by
  unfold AddAction
  split <;> exact ⟨rfl, rfl, rfl⟩

theorem RemoveAction_frame (d : EventDispatcher) (a : Action) :
    (RemoveAction d a).1.currentJobId = d.currentJobId ∧
    (RemoveAction d a).1.snapshots = d.snapshots ∧
    (RemoveAction d a).1.clock = d.clock := by
  unfold RemoveAction
  cases removeByName d.actions a.Name <;> exact ⟨rfl, rfl, rfl⟩

theorem HandleEvent_snapshots (d : EventDispatcher) (ctx : Ctx) (ev : Ev)
    (w : World) :
    (HandleEvent d ctx ev w).1.snapshots =
      mapInsert d.snapshots d.currentJobId
        { Id := d.currentJobId, Event := ev,
          ActionsResults := (runActions ctx ev w d.clock [] d.actions).results,
          Context := ctx,
          Success := (runActions ctx ev w d.clock [] d.actions).success,
          actionsToProcess := (runActions ctx ev w d.clock [] d.actions).pending } :=
  rfl

theorem RetryJob_currentJobId (d : EventDispatcher) (j : Int) (w : World) :
    (RetryJob d j w).1.currentJobId = d.currentJobId := by
  unfold RetryJob
  cases h : validateRetryJobId d j with
  | some e => rfl
  | none =>
    cases h2 : mapLookup d.snapshots j.toNat with
    | none => rfl
    | some s => rfl

theorem RetryJob_actions (d : EventDispatcher) (j : Int) (w : World) :
    (RetryJob d j w).1.actions = d.actions := by
  unfold RetryJob
  cases h : validateRetryJobId d j with
  | some e => rfl
  | none =>
    cases h2 : mapLookup d.snapshots j.toNat with
    | none => rfl
    | some s => rfl

theorem RetryJob_storeKeys (d : EventDispatcher) (j : Int) (w : World) :
    storeKeys (RetryJob d j w).1 = storeKeys d := by
  unfold RetryJob
  cases h : validateRetryJobId d j with
  | some e => rfl
  | none =>
    cases h2 : mapLookup d.snapshots j.toNat with
    | none => rfl
    | some s =>
      have hmem : j.toNat ∈ storeKeys d := mapLookup_mem_keys _ _ _ h2
      exact keys_insert_mem d.snapshots j.toNat _ hmem

/-- A dispatcher whose store and clock agree with another one retries a job
with the same resulting store and error: `RetryJob` never reads the actions
registry or the id counter. -/
theorem RetryJob_of_same_store (a₁ a₂ : List Action) (c₁ c₂ : Nat)
    (s : List (Nat × Snapshot)) (k : Nat) (j : Int) (w : World) :
    (RetryJob ⟨a₂, c₂, s, k⟩ j w).1.snapshots =
      (RetryJob ⟨a₁, c₁, s, k⟩ j w).1.snapshots ∧
    (RetryJob ⟨a₂, c₂, s, k⟩ j w).2 = (RetryJob ⟨a₁, c₁, s, k⟩ j w).2 := by
  have hv : validateRetryJobId ⟨a₂, c₂, s, k⟩ j = validateRetryJobId ⟨a₁, c₁, s, k⟩ j := rfl
  unfold RetryJob
  rw [hv]
  cases h : validateRetryJobId ⟨a₁, c₁, s, k⟩ j with
  | some e => exact ⟨rfl, rfl⟩
  | none =>
    cases h2 : mapLookup s j.toNat with
    | none => exact ⟨rfl, rfl⟩
    | some snap => exact ⟨rfl, rfl⟩

/-- The snapshot stored by `HandleEvent` plans exactly the registry of the
moment of the call: the names of the recorded results followed by the names
of the still-pending actions are the registry's names. -/
theorem HandleEvent_plan_names (d : EventDispatcher) (ctx : Ctx) (ev : Ev)
    (w : World) :
    ∃ snap, mapLookup (HandleEvent d ctx ev w).1.snapshots d.currentJobId = some snap ∧
      snap.ActionsResults.map (fun r => r.Name) ++
        snap.actionsToProcess.map (fun b => b.Name) =
      d.actions.map (fun b => b.Name) := by
  refine ⟨Snapshot.mk d.currentJobId ev
      (runActions ctx ev w d.clock [] d.actions).results ctx
      (runActions ctx ev w d.clock [] d.actions).success
      (runActions ctx ev w d.clock [] d.actions).pending, ?_, ?_⟩
  · rw [HandleEvent_snapshots]
    exact mapLookup_insert_self _ _ _
  · have h := runActions_names ctx ev w d.actions d.clock []
    simpa using h

/-! The store-keys invariant over reachable dispatcher states. -/

theorem reachable_storeKeys (d : EventDispatcher) (h : Reachable d) :
    storeKeys d = List.range d.currentJobId := by
  induction h with
  | init => rfl
  | step d op hd ih =>
    cases op with
    | addAction a =>
      have hf := AddAction_frame d a
      show storeKeys (AddAction d a).1 = List.range (AddAction d a).1.currentJobId
      unfold storeKeys
      rw [hf.2.1, hf.1]
      exact ih
    | removeAction a =>
      have hf := RemoveAction_frame d a
      show storeKeys (RemoveAction d a).1 = List.range (RemoveAction d a).1.currentJobId
      unfold storeKeys
      rw [hf.2.1, hf.1]
      exact ih
    | handleEvent ctx ev w =>
      show storeKeys (HandleEvent d ctx ev w).1 =
        List.range (HandleEvent d ctx ev w).1.currentJobId
      have hcnt : (HandleEvent d ctx ev w).1.currentJobId = d.currentJobId + 1 := rfl
      have hfresh : d.currentJobId ∉ storeKeys d := by
        rw [ih]
        intro hmem
        exact absurd (List.mem_range.mp hmem) (lt_irrefl _)
      unfold storeKeys
      rw [hcnt, HandleEvent_snapshots]
      have := keys_insert_not_mem d.snapshots d.currentJobId
        { Id := d.currentJobId, Event := ev,
          ActionsResults := (runActions ctx ev w d.clock [] d.actions).results,
          Context := ctx,
          Success := (runActions ctx ev w d.clock [] d.actions).success,
          actionsToProcess := (runActions ctx ev w d.clock [] d.actions).pending }
        hfresh
      rw [this]
      show storeKeys d ++ [d.currentJobId] = _
      rw [ih, List.range_succ]
    | retryJob j w =>
      show storeKeys (RetryJob d j w).1 = List.range (RetryJob d j w).1.currentJobId
      rw [RetryJob_storeKeys, RetryJob_currentJobId]
      exact ih

theorem reachable_store_length (d : EventDispatcher) (h : Reachable d) :
    d.snapshots.length = d.currentJobId := by
  have hk := reachable_storeKeys d h
  have := congrArg List.length hk
  simpa [storeKeys] using this

/-! Job-id sequencing lemmas. -/

theorem step_currentJobId_handle (d : EventDispatcher) (ctx : Ctx) (ev : Ev)
    (w : World) :
    (step d (.handleEvent ctx ev w)).currentJobId = d.currentJobId + 1 := rfl

theorem handleIds_eq (ops : List Op) : ∀ d : EventDispatcher,
    handleIds d ops = List.range' d.currentJobId (countHandles ops) := by
  induction ops with
  | nil => intro d; rfl
  | cons op rest ih =>
    intro d
    cases op with
    | addAction a =>
      show handleIds (step d (.addAction a)) rest = _
      rw [ih]
      show List.range' (AddAction d a).1.currentJobId (countHandles rest) = _
      rw [(AddAction_frame d a).1]
      rfl
    | removeAction a =>
      show handleIds (step d (.removeAction a)) rest = _
      rw [ih]
      show List.range' (RemoveAction d a).1.currentJobId (countHandles rest) = _
      rw [(RemoveAction_frame d a).1]
      rfl
    | handleEvent ctx ev w =>
      show (HandleEvent d ctx ev w).2.1 ::
          handleIds (step d (.handleEvent ctx ev w)) rest = _
      rw [ih, step_currentJobId_handle]
      show d.currentJobId :: List.range' (d.currentJobId + 1) (countHandles rest) =
        List.range' d.currentJobId (countHandles rest + 1)
      rw [List.range'_succ]
    | retryJob j w =>
      show handleIds (step d (.retryJob j w)) rest = _
      rw [ih]
      show List.range' (RetryJob d j w).1.currentJobId (countHandles rest) = _
      rw [RetryJob_currentJobId]
      rfl

theorem runOps_currentJobId (ops : List Op) : ∀ d : EventDispatcher,
    (runOps d ops).currentJobId = d.currentJobId + countHandles ops := by
  induction ops with
  | nil => intro d; rfl
  | cons op rest ih =>
    intro d
    show (runOps (step d op) rest).currentJobId = _
    rw [ih]
    cases op with
    | addAction a =>
      rw [show (step d (.addAction a)).currentJobId = d.currentJobId from (AddAction_frame d a).1]
      rfl
    | removeAction a =>
      rw [show (step d (.removeAction a)).currentJobId = d.currentJobId from (RemoveAction_frame d a).1]
      rfl
    | handleEvent ctx ev w =>
      rw [step_currentJobId_handle]
      show d.currentJobId + 1 + countHandles rest = d.currentJobId + (countHandles rest + 1)
      omega
    | retryJob j w =>
      rw [show (step d (.retryJob j w)).currentJobId = d.currentJobId from RetryJob_currentJobId d j w]
      rfl

/-! Further rfl views of the execution engine. -/

theorem handleEventByActions_err (d : EventDispatcher) (ctx : Ctx) (ev : Ev)
    (acts : List Action) (jobId : Nat) (w : World) :
    (handleEventByActions d ctx ev acts jobId w).2 =
      (runActions ctx ev w d.clock [] acts).err := rfl

theorem handleEventByActions_snapshots (d : EventDispatcher) (ctx : Ctx)
    (ev : Ev) (acts : List Action) (jobId : Nat) (w : World) :
    (handleEventByActions d ctx ev acts jobId w).1.snapshots =
      mapInsert d.snapshots jobId
        (Snapshot.mk jobId ev (runActions ctx ev w d.clock [] acts).results ctx
          (runActions ctx ev w d.clock [] acts).success
          (runActions ctx ev w d.clock [] acts).pending) := rfl



/-- C1: in any execution attempt (dispatch or retry), if the actions before
the k-th all succeed and the k-th fails, the attempt returns the wrapped
failure of the k-th action, the stored snapshot has Success false, exactly
k-1 recorded results and a pending list beginning at the failed action, and
the actions after the k-th are not invoked (the attempt's error does not
depend on them). -/
theorem c1_failFast (d : EventDispatcher) (ctx : Ctx) (ev : Ev) (w : World)
    (jobId : Nat) (pre post : List Action) (a : Action) (e : String)
    (hpre : ∀ b ∈ pre, (b.Do ctx ev w).isOk = true)
    (ha : a.Do ctx ev w = .error e) :
    (handleEventByActions d ctx ev (pre ++ a :: post) jobId w).2 =
      some (.actionFailed a.Name e) ∧
    (∃ snap,
      mapLookup (handleEventByActions d ctx ev (pre ++ a :: post) jobId w).1.snapshots jobId
        = some snap ∧
      snap.Success = false ∧
      snap.ActionsResults.length = pre.length ∧
      snap.actionsToProcess = a :: post) ∧
    (handleEventByActions d ctx ev (pre ++ a :: post) jobId w).2 =
      (handleEventByActions d ctx ev (pre ++ [a]) jobId w).2 := by
  obtain ⟨res, heq, hlen⟩ := runActions_ok_prefix ctx ev w pre hpre (a :: post) d.clock []
  obtain ⟨res1, heq1, hlen1⟩ := runActions_ok_prefix ctx ev w pre hpre [a] d.clock []
  have hrun : runActions ctx ev w d.clock [] (pre ++ a :: post) =
      ⟨res, a :: post, false, some (.actionFailed a.Name e), d.clock + pre.length⟩ := by
    rw [heq, runActions_fail_head ctx ev w a post e ha]
    simp
  have hrun1 : runActions ctx ev w d.clock [] (pre ++ [a]) =
      ⟨res1, [a], false, some (.actionFailed a.Name e), d.clock + pre.length⟩ := by
    rw [heq1, runActions_fail_head ctx ev w a [] e ha]
    simp
  refine ⟨?_, ?_, ?_⟩
  · rw [handleEventByActions_err, hrun]
  · refine ⟨Snapshot.mk jobId ev res ctx false (a :: post), ?_, rfl, hlen, rfl⟩
    rw [handleEventByActions_snapshots, hrun]
    exact mapLookup_insert_self _ _ _
  · rw [handleEventByActions_err, hrun, handleEventByActions_err, hrun1]

/-- C1 witness: a concrete attempt with one succeeding action, then a failing
one, then a further action: the attempt fails with the second action's
wrapped error. -/
theorem c1_failFast_witness :
    (handleEventByActions NewEventDispatcher 0 evSample
        ([actOk] ++ actBoom :: [actFlaky]) 5 0).2 =
      some (.actionFailed "boom_action" "boom") := by
  have h := c1_failFast NewEventDispatcher 0 evSample 0 5 [actOk] [actFlaky]
    actBoom "boom"
    (by intro b hb; rw [List.mem_singleton] at hb; subst hb; rfl) rfl
  exact h.1

/-- C2: the claim that results plus pending stays constant across a job's
lifetime fails on the code: each attempt stores a freshly allocated snapshot
whose result list starts empty, so a retry discards the results of earlier
attempts. Ok-then-boom: after the failed dispatch the stored snapshot has
1 result and 1 pending action (sum 2, the planned count); after a retry that
fails at the same action the stored snapshot has 0 results and 1 pending
action (sum 1). -/
theorem c2_resultsDiscardedOnRetry :
    ((mapLookup dispOkBoomFailed.snapshots 0).map
      (fun s => s.ActionsResults.length + s.actionsToProcess.length) = some 2) ∧
    ((mapLookup (RetryJob dispOkBoomFailed 0 0).1.snapshots 0).map
      (fun s => s.ActionsResults.length + s.actionsToProcess.length) = some 1) :=
  ⟨rfl, rfl⟩

/-- C3: the claim that a fully successful attempt leaves as many results as
actions registered at dispatch fails on the code for retry attempts:
ok-then-flaky (2 registered actions) fails at the flaky action, and the
retry in the fixed world succeeds running only the single pending action;
the freshly stored snapshot then has Success true but only 1 result. -/
theorem c3_retryResultCountMismatch :
    dispOkFlaky.actions.length = 2 ∧
    ((mapLookup (RetryJob (HandleEvent dispOkFlaky 0 evSample 0).1 0 1).1.snapshots 0).map
      (fun s => (s.Success, s.ActionsResults.length, s.actionsToProcess.length))
      = some (true, 1, 0)) :=
  ⟨rfl, rfl⟩

/-- Retrying is unaffected by a preceding AddAction: the resulting store and
error are those of the retry without the registry mutation. -/
theorem RetryJob_after_AddAction (d : EventDispatcher) (act : Action)
    (j : Int) (w : World) :
    (RetryJob (AddAction d act).1 j w).1.snapshots =
      (RetryJob d j w).1.snapshots ∧
    (RetryJob (AddAction d act).1 j w).2 = (RetryJob d j w).2 := by
  obtain ⟨da, dc, ds, dk⟩ := d
  unfold AddAction
  split
  · exact ⟨rfl, rfl⟩
  · exact RetryJob_of_same_store da (da ++ [act]) dc dc ds dk j w

/-- Retrying is unaffected by a preceding RemoveAction. -/
theorem RetryJob_after_RemoveAction (d : EventDispatcher) (act : Action)
    (j : Int) (w : World) :
    (RetryJob (RemoveAction d act).1 j w).1.snapshots =
      (RetryJob d j w).1.snapshots ∧
    (RetryJob (RemoveAction d act).1 j w).2 = (RetryJob d j w).2 := by
  obtain ⟨da, dc, ds, dk⟩ := d
  unfold RemoveAction
  cases h : removeByName da act.Name with
  | some l => exact RetryJob_of_same_store da l dc dc ds dk j w
  | none => exact ⟨rfl, rfl⟩

/-- C4: a snapshot's pending list is fixed at dispatch: adding or removing a
registry action afterwards leaves every stored snapshot unchanged, a
subsequent retry produces the same store and the same error as it would have
without the registry mutation (so it never runs the newly added or removed
action), and only a subsequent HandleEvent plans with the mutated registry
(its stored snapshot's result and pending names spell out the registry at
call time). -/
theorem c4_pendingFixedAtDispatch (d : EventDispatcher) (j : Nat)
    (snap : Snapshot) (act : Action) (w : World)
    (hlook : mapLookup d.snapshots j = some snap)
    (_hfail : snap.Success = false) :
    (mapLookup (AddAction d act).1.snapshots j = some snap ∧
     mapLookup (RemoveAction d act).1.snapshots j = some snap) ∧
    ((RetryJob (AddAction d act).1 (j : Int) w).1.snapshots =
        (RetryJob d (j : Int) w).1.snapshots ∧
     (RetryJob (AddAction d act).1 (j : Int) w).2 = (RetryJob d (j : Int) w).2) ∧
    ((RetryJob (RemoveAction d act).1 (j : Int) w).1.snapshots =
        (RetryJob d (j : Int) w).1.snapshots ∧
     (RetryJob (RemoveAction d act).1 (j : Int) w).2 = (RetryJob d (j : Int) w).2) ∧
    (∀ ctx ev w', ∃ snap',
      mapLookup (HandleEvent (AddAction d act).1 ctx ev w').1.snapshots
          (AddAction d act).1.currentJobId = some snap' ∧
      snap'.ActionsResults.map (fun r => r.Name) ++
          snap'.actionsToProcess.map (fun b => b.Name) =
        (AddAction d act).1.actions.map (fun b => b.Name)) := by
  refine ⟨⟨?_, ?_⟩, RetryJob_after_AddAction d act (j : Int) w,
    RetryJob_after_RemoveAction d act (j : Int) w, ?_⟩
  · rw [(AddAction_frame d act).2.1]; exact hlook
  · rw [(RemoveAction_frame d act).2.1]; exact hlook
  · intro ctx ev w'
    exact HandleEvent_plan_names (AddAction d act).1 ctx ev w'

/-- C4 witness: ok-then-boom after the failed dispatch of job 0; adding the
flaky action afterwards leaves job 0's snapshot intact and a retry of job 0
returns the same error as without the addition. -/
theorem c4_pendingFixedAtDispatch_witness :
    mapLookup (AddAction dispOkBoomFailed actFlaky).1.snapshots 0 =
      some snapOkBoomFailed ∧
    (RetryJob (AddAction dispOkBoomFailed actFlaky).1 0 0).2 =
      (RetryJob dispOkBoomFailed 0 0).2 := by
  have h := c4_pendingFixedAtDispatch dispOkBoomFailed 0 snapOkBoomFailed
    actFlaky 0 rfl rfl
  exact ⟨h.1.1, h.2.1.2⟩

/-- C5 counterexample: with no actions registered, HandleEvent of a nil
event (the first call on a fresh dispatcher) returns no error at all, so it
does not fail with an invalid-event error; indeed the model's error type has
no invalid-event kind, mirroring the source. -/
theorem c5_nilEventAccepted :
    (HandleEvent NewEventDispatcher 0 none 0).2.2 = none := rfl

/-- C5 (amended): HandleEvent performs no validation of the event: a nil
event is dispatched like any other, the planned actions are invoked with it
as input, and the call errors exactly when one of them fails on it. -/
theorem c5_noEventValidation (d : EventDispatcher) (ctx : Ctx) (w : World) :
    ((HandleEvent d ctx none w).2.2 = none ↔
      ∀ a ∈ d.actions, (a.Do ctx none w).isOk = true) := by
  have h : (HandleEvent d ctx none w).2.2 =
      (runActions ctx none w d.clock [] d.actions).err := rfl
  rw [h]
  exact runActions_err_none_iff ctx none w d.actions d.clock []

/-- C6: over any sequence of public operations on a fresh dispatcher, the
job ids returned by the HandleEvent calls are 0, 1, 2, ... in call order
(the range of the number of HandleEvent calls, whatever each run's outcome
and wherever AddAction, RemoveAction or RetryJob calls are interleaved), and
the id counter equals the number of HandleEvent calls, so ids are never
reused and RetryJob never assigns one. -/
theorem c6_jobIdsSequential (ops : List Op) :
    handleIds NewEventDispatcher ops = List.range (countHandles ops) ∧
    (runOps NewEventDispatcher ops).currentJobId = countHandles ops := by
  constructor
  · rw [handleIds_eq, List.range_eq_range']
    rfl
  · rw [runOps_currentJobId]
    exact Nat.zero_add _

/-- C7: retrying a job whose stored snapshot has already succeeded returns
the succeeded-job error and leaves the dispatcher state exactly unchanged,
running no action. -/
theorem c7_retryOfSucceededJobRejected (d : EventDispatcher) (j : Nat)
    (snap : Snapshot) (w : World) (hreach : Reachable d)
    (hlook : mapLookup d.snapshots j = some snap)
    (hsucc : snap.Success = true) :
    RetryJob d (j : Int) w = (d, some .succeededJobRetryCall) := by
  have hlen : d.snapshots.length = d.currentJobId := reachable_store_length d hreach
  have hmem : j ∈ storeKeys d := mapLookup_mem_keys _ _ _ hlook
  rw [reachable_storeKeys d hreach] at hmem
  have hlt : j < d.currentJobId := List.mem_range.mp hmem
  have hcond : ¬((d.snapshots.length : Int) ≤ (j : Int) ∨ (j : Int) < 0) := by
    omega
  unfold RetryJob validateRetryJobId
  rw [if_neg hcond, Int.toNat_natCast, hlook]
  simp [hsucc]

/-- C7 witness: a dispatcher that handled one event with an empty registry
(job 0 succeeded trivially); retrying job 0 is rejected and changes
nothing. -/
theorem c7_retryOfSucceededJobRejected_witness :
    RetryJob dispTrivialDone 0 3 = (dispTrivialDone, some .succeededJobRetryCall) := by
  have h := c7_retryOfSucceededJobRejected dispTrivialDone 0 snapTrivialDone 3
    (Reachable.step NewEventDispatcher (.handleEvent 7 (some []) 0) Reachable.init)
    rfl rfl
  exact h

/-- C8: retrying with a negative id, or with an id the dispatcher never
returned (at least the id counter), is rejected with the invalid-id error
and leaves the dispatcher state exactly unchanged, running no action. -/
theorem c8_invalidRetryIdRejected (d : EventDispatcher) (j : Int) (w : World)
    (hreach : Reachable d)
    (hj : j < 0 ∨ (d.currentJobId : Int) ≤ j) :
    RetryJob d j w = (d, some .invalidJobId) := by
  have hlen : d.snapshots.length = d.currentJobId := reachable_store_length d hreach
  have hcond : ((d.snapshots.length : Int) ≤ j ∨ j < 0) := by omega
  unfold RetryJob validateRetryJobId
  rw [if_pos hcond]

/-- C8 witness: retrying job -1 on a fresh dispatcher (and job 1, which was
never assigned, on a dispatcher that handled one event) is rejected. -/
theorem c8_invalidRetryIdRejected_witness :
    RetryJob NewEventDispatcher (-1) 0 = (NewEventDispatcher, some .invalidJobId) ∧
    RetryJob dispTrivialDone 1 0 = (dispTrivialDone, some .invalidJobId) := by
  constructor
  · exact c8_invalidRetryIdRejected NewEventDispatcher (-1) 0 Reachable.init
      (Or.inl (by decide))
  · exact c8_invalidRetryIdRejected dispTrivialDone 1 0
      (Reachable.step NewEventDispatcher (.handleEvent 7 (some []) 0) Reachable.init)
      (Or.inr (by decide))

/-- C9 counterexample: on a fresh dispatcher, HandleEvent with a nil event
advances the id counter to 1 and stores a snapshot under id 0, and the next
HandleEvent with a non-nil event returns id 1, not the id 0 the rejected
call would otherwise have consumed. -/
theorem c9_nilEventConsumesId :
    (HandleEvent NewEventDispatcher 0 none 0).1.currentJobId = 1 ∧
    (mapLookup (HandleEvent NewEventDispatcher 0 none 0).1.snapshots 0).isSome
      = true ∧
    (HandleEvent (HandleEvent NewEventDispatcher 0 none 0).1 0 evSample 0).2.1
      = 1 :=
  ⟨rfl, rfl, rfl⟩

/-- C9 (amended): HandleEvent with a nil event consumes the next job id and
records a snapshot under it exactly like any other call; the next
HandleEvent returns the following id. -/
theorem c9_nilEventAdvancesCounter (d : EventDispatcher) (ctx : Ctx)
    (w : World) :
    (HandleEvent d ctx none w).2.1 = d.currentJobId ∧
    (HandleEvent d ctx none w).1.currentJobId = d.currentJobId + 1 ∧
    (mapLookup (HandleEvent d ctx none w).1.snapshots d.currentJobId).isSome
      = true ∧
    (∀ ctx' ev' w',
      (HandleEvent (HandleEvent d ctx none w).1 ctx' ev' w').2.1 =
        d.currentJobId + 1) := by
  refine ⟨rfl, rfl, ?_, fun ctx' ev' w' => rfl⟩
  rw [HandleEvent_snapshots, mapLookup_insert_self]
  rfl

/-- C10: in every reachable dispatcher state the snapshot store's keys are
exactly 0, ..., currentJobId - 1 in order, its size equals the id counter,
every HandleEvent call adds exactly one snapshot stored under the id it
returns (whatever the run's outcome, nil event included), and RetryJob never
adds or removes a key. -/
theorem c10_storeKeysExactlyRange (d : EventDispatcher) (hreach : Reachable d) :
    storeKeys d = List.range d.currentJobId ∧
    d.snapshots.length = d.currentJobId ∧
    (∀ ctx ev w, storeKeys (HandleEvent d ctx ev w).1 =
        storeKeys d ++ [d.currentJobId] ∧
      (HandleEvent d ctx ev w).2.1 = d.currentJobId) ∧
    (∀ j w, storeKeys (RetryJob d j w).1 = storeKeys d) := by
  refine ⟨reachable_storeKeys d hreach, reachable_store_length d hreach, ?_,
    fun j w => RetryJob_storeKeys d j w⟩
  intro ctx ev w
  refine ⟨?_, rfl⟩
  have hfresh : d.currentJobId ∉ storeKeys d := by
    rw [reachable_storeKeys d hreach]
    intro hm
    exact absurd (List.mem_range.mp hm) (lt_irrefl _)
  unfold storeKeys
  rw [HandleEvent_snapshots]
  exact keys_insert_not_mem _ _ _ hfresh

/-- C10 witness: the invariant evaluated on a concrete reachable state, the
fresh dispatcher after one trivially succeeding HandleEvent call: keys are
exactly the range of the counter. -/
theorem c10_storeKeysExactlyRange_witness :
    storeKeys dispTrivialDone = List.range dispTrivialDone.currentJobId ∧
    dispTrivialDone.snapshots.length = dispTrivialDone.currentJobId := by
  have h := c10_storeKeysExactlyRange dispTrivialDone
    (Reachable.step NewEventDispatcher (.handleEvent 7 (some []) 0) Reachable.init)
  exact ⟨h.1, h.2.1⟩

end EventDrivenApp
